import Mathlib

/-!
Verification of the PawsRise endpoint-ranking and connection engine
(src/PawsRise.py) against its natural-language specification.

The Python source is shallowly embedded:
* latencies (Python floats, with `float('inf')` as the unreachable
  sentinel) become the inductive `Latency` over `ℚ`;
* the two regular expressions of the source are concrete deterministic
  patterns (every quantified subpattern is followed by a character it
  cannot match, so Python's backtracking search coincides with maximal
  munch); they are embedded as explicit scanners over `List Char` with
  `re.findall` / `re.sub` scan semantics;
* concurrency (the probe fan-out of `find_fastest_server`) is embedded
  by passing the collected result list — whose order is arbitrary — as
  an explicit argument;
* the interactive selection loop consumes an explicit list of input
  lines; the process supervision of `connect_to_server` is embedded as
  the event trace its control flow produces.
-/

/-- Latency of one probe: a finite elapsed time, or the `float('inf')`
sentinel the source uses for unreachable endpoints. -/
inductive Latency where
  | finite : ℚ → Latency
  | inf : Latency
deriving DecidableEq

/-- `latLe a b` is the Python `<=` on probe latencies (`inf` largest). -/
def latLe : Latency → Latency → Bool
  | _, .inf => true
  | .inf, .finite _ => false
  | .finite a, .finite b => a ≤ b

/-- One parsed server record, as built by `extract_servers`
(`{'hostname': …, 'ip': …, 'location': …, 'ports': […]}`).  Ports are
kept as the matched digit strings, in insertion order. -/
structure Server where
  hostname : String
  ip : String
  location : String
  ports : List String
deriving DecidableEq

/-- One match of the `remote_pattern` regex: the four captured groups
`(ip, port, hostname, location)`. -/
structure RMatch where
  ip : String
  port : String
  hostname : String
  location : String
deriving DecidableEq

/-! ### Character classes of the source's regexes (`\d`, `\w`, `\s`) -/

def isDigitC (c : Char) : Bool := c.isDigit

def isWordC (c : Char) : Bool := c.isAlphanum || c == '_'

def isSpaceC (c : Char) : Bool :=
  c == ' ' || c == '\t' || c == '\n' || c == '\r' ||
  c == Char.ofNat 11 || c == Char.ofNat 12

/-! ### Elementary pattern pieces -/

/-- Match a literal character sequence, returning the rest. -/
def lit (w : List Char) (s : List Char) : Option (List Char) :=
  if w.isPrefixOf s then some (s.drop w.length) else none

/-- Match one-or-more characters of class `p` (a greedy `X+`),
returning the matched run and the rest. -/
def munch1 (p : Char → Bool) (s : List Char) : Option (List Char × List Char) :=
  let pre := s.takeWhile p
  if pre.isEmpty then none else some (pre, s.dropWhile p)

/-- Sequencing of pattern pieces (the success path of the matcher). -/
def obind {A B : Type} (x : Option A) (f : A → Option B) : Option B :=
  match x with
  | none => none
  | some a => f a

/-- Match `\d+\.\d+\.\d+\.\d+` (a dotted quad), returning the matched
characters and the rest. -/
def matchQuad (s : List Char) : Option (List Char × List Char) :=
  obind (munch1 isDigitC s) fun p1 =>
  obind (lit ['.'] p1.2) fun s1 =>
  obind (munch1 isDigitC s1) fun p2 =>
  obind (lit ['.'] p2.2) fun s2 =>
  obind (munch1 isDigitC s2) fun p3 =>
  obind (lit ['.'] p3.2) fun s3 =>
  obind (munch1 isDigitC s3) fun p4 =>
  some (p1.1 ++ '.' :: p2.1 ++ '.' :: p3.1 ++ '.' :: p4.1, p4.2)

/-- Match `vpn\d+-\w+\.riseup\.net`, returning the matched characters
and the rest. -/
def matchHostname (s : List Char) : Option (List Char × List Char) :=
  obind (lit ("vpn".toList) s) fun s1 =>
  obind (munch1 isDigitC s1) fun p1 =>
  obind (lit ['-'] p1.2) fun s2 =>
  obind (munch1 isWordC s2) fun p2 =>
  obind (lit (".riseup.net".toList) p2.2) fun s3 =>
  some ("vpn".toList ++ p1.1 ++ '-' :: p2.1 ++ ".riseup.net".toList, s3)

/-- Try the capture pattern
`remote\s+(\d+\.\d+\.\d+\.\d+)\s+(\d+)\s+#\s+(vpn\d+-\w+\.riseup\.net)\s+\(([^)]+)\)`
at the head of `s`; on success return the four captured groups and the
rest of the input after the match. -/
def matchRemoteAt (s : List Char) : Option (RMatch × List Char) :=
  obind (lit ("remote".toList) s) fun s1 =>
  obind (munch1 isSpaceC s1) fun w1 =>
  obind (matchQuad w1.2) fun ip =>
  obind (munch1 isSpaceC ip.2) fun w2 =>
  obind (munch1 isDigitC w2.2) fun port =>
  obind (munch1 isSpaceC port.2) fun w3 =>
  obind (lit ['#'] w3.2) fun s2 =>
  obind (munch1 isSpaceC s2) fun w4 =>
  obind (matchHostname w4.2) fun host =>
  obind (munch1 isSpaceC host.2) fun w5 =>
  obind (lit ['('] w5.2) fun s3 =>
  obind (munch1 (fun c => !(c == ')')) s3) fun loc =>
  obind (lit [')'] loc.2) fun s4 =>
  some (⟨⟨ip.1⟩, ⟨port.1⟩, ⟨host.1⟩, ⟨loc.1⟩⟩, s4)

/-- `re.findall` scan: try the pattern at every position, left to
right; on a match continue after its end.  Fuel is the input length
(every step consumes at least one character). -/
def findRemoteAux : Nat → List Char → List RMatch
  | 0, _ => []
  | _, [] => []
  | fuel + 1, c :: rest =>
    match matchRemoteAt (c :: rest) with
    | some (m, s2) => m :: findRemoteAux fuel s2
    | none => findRemoteAux fuel rest

/-- All matches of `remote_pattern` in the configuration text
(`re.findall(remote_pattern, content)`). -/
def findRemoteMatches (content : String) : List RMatch :=
  findRemoteAux content.toList.length content.toList

/-! ### Grouping matches into server records (`extract_servers`) -/

/-- `if port not in ports: ports.append(port)`. -/
def addPort (ports : List String) (port : String) : List String :=
  if ports.contains port then ports else ports ++ [port]

/-- One iteration of the grouping loop of `extract_servers`: create the
dict entry if the hostname is new (with the first match's ip and
location and an empty port list), then append the port if absent. -/
def insertMatch (acc : List Server) (m : RMatch) : List Server :=
  let base := if acc.any (fun s => s.hostname == m.hostname) then acc
              else acc ++ [⟨m.hostname, m.ip, m.location, []⟩]
  base.map (fun s => if s.hostname == m.hostname
                     then { s with ports := addPort s.ports m.port } else s)

/-- The grouping loop over all matches (`servers_dict`, insertion
ordered, then `list(servers_dict.values())`). -/
def groupMatches (ms : List RMatch) : List Server := ms.foldl insertMatch []

/-- `extract_servers`: find all `remote` directive matches in the
configuration text and group them by hostname. -/
def extract_servers (content : String) : List Server :=
  groupMatches (findRemoteMatches content)

/-! ### The latency probe (`test_server_speed`) -/

/-- Outcome of the single `sock.connect` call: a successful handshake
with its elapsed time, or the two caught failures (`socket.timeout`,
`socket.error`). -/
inductive ConnectOutcome where
  | success : ℚ → ConnectOutcome
  | timedOut : ConnectOutcome
  | sockErr : ConnectOutcome
deriving DecidableEq

/-- `test_server_speed`: the environment supplies the outcomes of
successive connection attempts; the probe makes exactly one attempt,
returning the server paired with its latency and with the attempts it
did not consume.  A failed or timed-out attempt yields `Latency.inf`. -/
def test_server_speed (server : Server) (env : List ConnectOutcome) :
    (Server × Latency) × List ConnectOutcome :=
  match env with
  | [] => ((server, Latency.inf), [])
  | .success t :: rest => ((server, Latency.finite t), rest)
  | .timedOut :: rest => ((server, Latency.inf), rest)
  | .sockErr :: rest => ((server, Latency.inf), rest)

/-! ### The ranker (`find_fastest_server`) -/

/-- The sort relation of `reachable_servers.sort(key=lambda x: x[1])`. -/
def rLat (p q : Server × Latency) : Prop := latLe p.2 q.2 = true

instance : DecidableRel rLat := fun p q =>
  (inferInstance : Decidable (latLe p.2 q.2 = true))

/-- `find_fastest_server`: `results` is the list of probe results in
completion order (the order is arbitrary — the pool is a full
barrier).  Unreachable results are filtered out; if none is reachable,
every input server is returned with the sentinel, in input order;
otherwise the reachable results are sorted by latency. -/
def find_fastest_server (servers : List Server) (results : List (Server × Latency)) :
    List (Server × Latency) :=
  let reachable := results.filter (fun p => !(p.2 == Latency.inf))
  if reachable.isEmpty then servers.map (fun s => (s, Latency.inf))
  else List.insertionSort rLat reachable

/-! ### Config synthesis (`create_server_specific_config`) -/

/-- Try the removal pattern `remote\s+\d+\.\d+\.\d+\.\d+\s+\d+.*\n` at
the head of `s`; on success return the rest of the input after the
match. -/
def matchRemoveAt (s : List Char) : Option (List Char) :=
  obind (lit ("remote".toList) s) fun s1 =>
  obind (munch1 isSpaceC s1) fun w1 =>
  obind (matchQuad w1.2) fun ip =>
  obind (munch1 isSpaceC ip.2) fun w2 =>
  obind (munch1 isDigitC w2.2) fun port =>
  obind (lit ['\n'] (port.2.dropWhile (fun c => !(c == '\n')))) fun s2 =>
  some s2

/-- `re.sub(remove_pattern, '', content)` scan: at every position, if
the pattern matches, drop the matched text and continue after it,
otherwise emit the character.  Fuel is the input length. -/
def stripRemotesAux : Nat → List Char → List Char
  | 0, s => s
  | _, [] => []
  | fuel + 1, c :: rest =>
    match matchRemoveAt (c :: rest) with
    | some s2 => stripRemotesAux fuel s2
    | none => c :: stripRemotesAux fuel rest

/-- All `remote` lines removed from the template
(`re.sub(r'remote\s+\d+\.\d+\.\d+\.\d+\s+\d+.*\n', '', content)`). -/
def stripRemotes (s : List Char) : List Char := stripRemotesAux s.length s

/-- `f"remote {ip} {port} # {hostname} ({location})"`. -/
def mkRemoteLine (server : Server) (port : String) : String :=
  "remote " ++ server.ip ++ " " ++ port ++ " # " ++ server.hostname ++
    " (" ++ server.location ++ ")"

/-- Join with newlines (`"\n".join(server_lines)`). -/
def joinNl (ls : List (List Char)) : List Char := (ls.intersperse ['\n']).flatten

/-- `create_server_specific_config` (the pure content transformation:
reading the base template and writing the result are the caller's
file-system steps): one new directive per port of the chosen server,
then a blank-line separator, then the template with every `remote`
line removed. -/
def create_server_specific_config (server : Server) (content : List Char) :
    List Char :=
  joinNl (server.ports.map (fun p => (mkRemoteLine server p).toList)) ++
    '\n' :: '\n' :: stripRemotes content

/-! ### The synthesis step seen by the file system (for `connect_to_server`) -/

/-- Paths used by `main` / `connect_to_server` inside the working
directory. -/
def base_config_name : String := "riseup-ovpn.conf"

/-- `f"riseup-{selected_server['hostname']}.conf"`. -/
def server_config_name (server : Server) : String :=
  "riseup-" ++ server.hostname ++ ".conf"

/-- A file system over the working directory: path to content. -/
def FS : Type := String → Option (List Char)

/-- Overwrite one path. -/
def fsWrite (fs : FS) (p : String) (c : List Char) : FS :=
  fun q => if q = p then some c else fs q

/-- The config-synthesis step of `connect_to_server`: read the base
template, synthesize, and overwrite the per-hostname artifact path.
An unreadable base template raises (no write happens). -/
def synth_step (fs : FS) (server : Server) : FS :=
  match fs base_config_name with
  | some content =>
      fsWrite fs (server_config_name server) (create_server_specific_config server content)
  | none => fs

/-! ### The selection menu (`display_servers_and_choose`) -/

/-- Python `str.strip()` (both ends, whitespace). -/
def pyStrip (s : String) : String :=
  ⟨(((s.toList.dropWhile isSpaceC).reverse.dropWhile isSpaceC).reverse)⟩

/-- Python `str.upper()` (ASCII). -/
def pyUpper (s : String) : String := ⟨s.toList.map Char.toUpper⟩

/-- Digit-string to number. -/
def digitsToNat (ds : List Char) : Nat :=
  ds.foldl (fun n c => 10 * n + (c.toNat - '0'.toNat)) 0

/-- Python `int(s)`: strip whitespace, optional sign, one or more
digits. -/
def pyInt (s : String) : Option Int :=
  match (pyStrip s).toList with
  | '+' :: ds =>
      if ds ≠ [] ∧ ds.all isDigitC then some (Int.ofNat (digitsToNat ds)) else none
  | '-' :: ds =>
      if ds ≠ [] ∧ ds.all isDigitC then some (-(Int.ofNat (digitsToNat ds))) else none
  | ds =>
      if ds ≠ [] ∧ ds.all isDigitC then some (Int.ofNat (digitsToNat ds)) else none

/-- Result of one run of the selection menu on a list of user inputs. -/
inductive ChooseResult where
  | err : ChooseResult          -- IndexError: `ranked_servers[0]` on an empty ranking
  | pending : ChooseResult      -- inputs exhausted, still prompting
  | exited : ChooseResult       -- the user entered `E`
  | chosen : Server → ChooseResult
deriving DecidableEq

/-- The `while True` prompt loop of `display_servers_and_choose`.
`hasFastest` is `fastest_index` being set; `top` is
`ranked_servers[0]`. -/
def chooseGo (ranked : List (Server × Latency)) (hasFastest : Bool)
    (top : Server × Latency) : List String → ChooseResult
  | [] => .pending
  | inp :: rest =>
    if pyUpper (pyStrip inp) = "E" then .exited
    else if hasFastest ∧ pyStrip inp = "" then .chosen top.1
    else
      match pyInt inp with
      | some i =>
          if 1 ≤ i ∧ i ≤ (ranked.length : Int)
          then .chosen ((ranked.getD ((i - 1).toNat) top).1)
          else chooseGo ranked hasFastest top rest
      | none => chooseGo ranked hasFastest top rest

/-- `display_servers_and_choose`: computing `fastest_speed` indexes
`ranked_servers[0]`, which raises `IndexError` on an empty ranking;
otherwise the prompt loop runs over the supplied inputs. -/
def display_servers_and_choose (ranked : List (Server × Latency))
    (inputs : List String) : ChooseResult :=
  match ranked with
  | [] => .err
  | r0 :: _ => chooseGo ranked (!(r0.2 == Latency.inf)) r0 inputs

/-! ### Startup behaviour of `main` after parsing -/

/-- Outcome of `main` after `extract_servers`: either a controlled
fatal `ParseError` exit (which the spec describes), or the program
runs on into the menu loop with whatever the menu does. -/
inductive StartupOutcome where
  | fatalParseError : StartupOutcome
  | ranOn : ChooseResult → StartupOutcome
deriving DecidableEq

/-- The post-parse path of `main` as written: no emptiness check —
rank the parsed servers (with the collected probe results) and enter
the menu loop. -/
def main_after_parse (content : String) (probeResults : List (Server × Latency))
    (inputs : List String) : StartupOutcome :=
  .ranOn (display_servers_and_choose
    (find_fastest_server (extract_servers content) probeResults) inputs)

/-! ### Tunnel supervision (`connect_to_server`) -/

/-- How the supervision body ends: the tunnel process exits on its own
(poll loop), the user cancels (`KeyboardInterrupt`), or an internal
error is raised. -/
inductive ExitPath where
  | processExited : ExitPath
  | cancelled : ExitPath
  | failed : ExitPath
deriving DecidableEq

/-- Events of the supervision trace. -/
inductive SupEvent where
  | launch : SupEvent
  | verify : SupEvent
  | pollLoop : SupEvent
  | terminateProc : SupEvent
  | waitGrace : Nat → SupEvent
  | closeOut : SupEvent
deriving DecidableEq

/-- The `finally` block: if the process was started and is still
alive, issue `terminate()` and `wait(timeout=5)` (any exception there,
including the wait timing out, is swallowed by `except: pass`), then
close the output sink. -/
def cleanupTunnel (started alive : Bool) : List SupEvent :=
  if started && alive then [.terminateProc, .waitGrace 5, .closeOut]
  else [.closeOut]

/-- The `try` body's trace on each exit path (`started` is whether
`Popen` succeeded before the path ended). -/
def superviseBody (path : ExitPath) (started : Bool) : List SupEvent :=
  if started then
    match path with
    | .processExited => [.launch, .verify, .pollLoop]
    | .cancelled => [.launch, .verify, .pollLoop]
    | .failed => [.launch, .verify]
  else []

/-- `connect_to_server`'s supervision: the body's trace followed —
unconditionally, on every exit path — by the `finally` cleanup; the
boolean records that control returns to the caller (the cleanup
swallows every error, in particular a `wait` that exceeds the grace
period, `graceTimeout = true`). -/
def connect_to_server (path : ExitPath) (started alive graceTimeout : Bool) :
    List SupEvent × Bool :=
  let _ := graceTimeout
  (superviseBody path started ++ cleanupTunnel started alive, true)

/-- First-occurrence deduplication: keep each string's first
occurrence, in order.  Fuel is the list length. -/
def dedupFirstAux : Nat → List String → List String
  | 0, _ => []
  | _, [] => []
  | fuel + 1, p :: ps => p :: dedupFirstAux fuel (ps.filter (fun q => !(q == p)))

/-- The list with later duplicates removed, first occurrences kept in
order. -/
def dedupFirst (l : List String) : List String := dedupFirstAux l.length l

/-- The per-match update function applied to every dict entry. -/
def updEntry (m : RMatch) (s : Server) : Server :=
  if s.hostname == m.hostname
  then { s with ports := addPort s.ports m.port } else s

/-- A well-formed directive line: `remote`, one space, a dotted-quad
address, one space, a numeric port, then an arbitrary newline-free
remainder (e.g. ` # hostname (location)`). -/
def renderDir (a b c d port tail : List Char) : List Char :=
  "remote".toList ++ ' ' :: (a ++ '.' :: (b ++ '.' :: (c ++ '.' :: (d ++ ' ' :: (port ++ tail)))))

/-! ## Structured templates -/

/-- One line of a base template: a directive line (address quad, port,
newline-free remainder) or any other line. -/
inductive TLine where
  | dir : List Char → List Char → List Char → List Char → List Char → List Char → TLine
  | plain : List Char → TLine
deriving DecidableEq

def renderLine : TLine → List Char
  | .dir a b c d port tail => renderDir a b c d port tail
  | .plain l => l

/-- A template text: its lines, each terminated by a newline. -/
def renderTemplate (ls : List TLine) : List Char :=
  (ls.map (fun l => renderLine l ++ ['\n'])).flatten

/-- Well-formedness of one template line: a directive line has
non-empty digit groups and a newline-free remainder; a non-directive
line contains no newline and does not contain `remote` as a
substring. -/
def goodLine : TLine → Prop
  | .dir a b c d port tail =>
      (a ≠ [] ∧ (∀ ch ∈ a, isDigitC ch = true)) ∧
      (b ≠ [] ∧ (∀ ch ∈ b, isDigitC ch = true)) ∧
      (c ≠ [] ∧ (∀ ch ∈ c, isDigitC ch = true)) ∧
      (d ≠ [] ∧ (∀ ch ∈ d, isDigitC ch = true)) ∧
      (port ≠ [] ∧ (∀ ch ∈ port, isDigitC ch = true)) ∧
      (∀ ch ∈ tail, ch ≠ '\n')
  | .plain l => (∀ ch ∈ l, ch ≠ '\n') ∧ ¬ ("remote".toList <:+: l)

instance : DecidablePred goodLine := fun l => by
  cases l <;> dsimp [goodLine] <;> infer_instance

def isPlainLine : TLine → Bool
  | .dir _ _ _ _ _ _ => false
  | .plain _ => true

instance : IsTotal (Server × Latency) rLat := by
  constructor
  intro p q
  unfold rLat
  cases hp : p.2 <;> cases hq : q.2 <;> simp [latLe]
  exact le_total _ _

instance : IsTrans (Server × Latency) rLat := by
  constructor
  intro p q r hpq hqr
  unfold rLat at *
  cases hp : p.2 <;> cases hq : q.2 <;> cases hr : r.2 <;>
    simp_all [latLe]
  exact le_trans hpq hqr

/-! ## Helper lemmas -/

theorem latLe_inf (x : Latency) : latLe x Latency.inf = true := by
  cases x <;> rfl

theorem sorted_map_const_inf (servers : List Server) :
    List.Sorted rLat (servers.map (fun s => (s, Latency.inf))) := by
  induction servers with
  | nil => simp
  | cons a l ih =>
    simp only [List.map_cons, List.sorted_cons] at *
    refine ⟨?_, ih⟩
    intro b hb
    obtain ⟨s, _, rfl⟩ := List.mem_map.mp hb
    rfl


/-! ## C6 — all probes unreachable -/

/-- C6: for a non-empty server list in which every collected probe
result carries the unreachable sentinel, `find_fastest_server` returns
(raising nothing) exactly the input servers, each paired with the
sentinel, in the original scan order. -/
theorem find_fastest_server_all_unreachable (servers : List Server)
    (results : List (Server × Latency)) (hne : servers ≠ [])
    (hall : ∀ p ∈ results, p.2 = Latency.inf) :
    find_fastest_server servers results =
      servers.map (fun s => (s, Latency.inf)) := by
  have hfil : results.filter (fun p => !(p.2 == Latency.inf)) = [] := by
    rw [List.filter_eq_nil_iff]
    intro p hp
    simp [hall p hp]
  simp [find_fastest_server, hfil]

theorem find_fastest_server_all_unreachable_witness :
    find_fastest_server [⟨"vpn1-a.riseup.net", "1.2.3.4", "Paris", ["1194"]⟩]
      [(⟨"vpn1-a.riseup.net", "1.2.3.4", "Paris", ["1194"]⟩, Latency.inf)] =
      [(⟨"vpn1-a.riseup.net", "1.2.3.4", "Paris", ["1194"]⟩, Latency.inf)] :=
  find_fastest_server_all_unreachable _ _ (by decide)
    (by intro p hp; simp at hp; rw [hp])

/-! ## C5 — the probe is total and makes one attempt -/

/-- C5: `test_server_speed` consumes exactly one connection attempt
from the environment (no retries), always returns the probed server,
pairs a timeout or socket error with the unreachable sentinel instead
of propagating it, and pairs a successful handshake with its elapsed
time. -/
theorem test_server_speed_total_one_attempt (server : Server)
    (o : ConnectOutcome) (rest : List ConnectOutcome) :
    (test_server_speed server (o :: rest)).2 = rest ∧
    (test_server_speed server (o :: rest)).1.1 = server ∧
    ((o = ConnectOutcome.timedOut ∨ o = ConnectOutcome.sockErr) →
      (test_server_speed server (o :: rest)).1.2 = Latency.inf) ∧
    (∀ t, o = ConnectOutcome.success t →
      (test_server_speed server (o :: rest)).1.2 = Latency.finite t) := by
  cases o <;> simp [test_server_speed]

theorem test_server_speed_total_one_attempt_witness :
    (test_server_speed ⟨"vpn1-a.riseup.net", "1.2.3.4", "Paris", ["1194"]⟩
      [ConnectOutcome.timedOut]).1.2 = Latency.inf :=
  (test_server_speed_total_one_attempt _ _ _).2.2.1 (Or.inl rfl)

/-! ## C7 — supervision cleanup on every exit path -/

/-- C7: on every exit path of the supervision (normal process exit,
cancellation, internal error), control returns to the caller; the
`finally` cleanup trace is a suffix of the whole trace on every path;
if the process was started and is still alive the cleanup issues a
graceful terminate and a wait bounded by 5 time-units; and the result
is the same whether or not the process exits within the grace window. -/
theorem connect_to_server_cleanup_every_path (path : ExitPath)
    (started alive g1 g2 : Bool) :
    (connect_to_server path started alive g1).2 = true ∧
    (∃ pre, (connect_to_server path started alive g1).1 =
      pre ++ cleanupTunnel started alive) ∧
    (started = true → alive = true →
      SupEvent.terminateProc ∈ (connect_to_server path started alive g1).1 ∧
      SupEvent.waitGrace 5 ∈ (connect_to_server path started alive g1).1) ∧
    connect_to_server path started alive g1 =
      connect_to_server path started alive g2 := by
  refine ⟨rfl, ⟨superviseBody path started, rfl⟩, ?_, rfl⟩
  rintro rfl rfl
  constructor <;> simp [connect_to_server, cleanupTunnel]

theorem connect_to_server_cleanup_every_path_witness :
    SupEvent.terminateProc ∈
      (connect_to_server ExitPath.cancelled true true true).1 ∧
    SupEvent.waitGrace 5 ∈
      (connect_to_server ExitPath.cancelled true true true).1 :=
  (connect_to_server_cleanup_every_path ExitPath.cancelled true true true
    false).2.2.1 rfl rfl

/-! ## C9 — synthesis is deterministic / overwrite-idempotent -/

theorem hostname_eq_of_config_name_eq (server : Server)
    (h : server_config_name server = base_config_name) :
    server.hostname = "ovpn" := by
  have hd : "riseup-".data ++ server.hostname.data ++ ".conf".data =
      "riseup-".data ++ "ovpn".data ++ ".conf".data := by
    have h1 := congrArg String.data h
    simp only [server_config_name, base_config_name, String.data_append] at h1
    rw [h1]
    decide
  rw [List.append_assoc, List.append_assoc] at hd
  have h2 := List.append_cancel_left hd
  have h3 := List.append_cancel_right h2
  exact String.ext h3

theorem synth_step_eq (fs : FS) (server : Server) (c : List Char)
    (h : fs base_config_name = some c) :
    synth_step fs server = fsWrite fs (server_config_name server)
      (create_server_specific_config server c) := by
  unfold synth_step
  rw [h]

/-- C9: synthesizing twice for the same endpoint against the same base
template writes byte-identical output both times: the second run reads
the unchanged base template (the per-hostname artifact path differs
from the base path), recomputes the same bytes, and the overwrite
leaves the file system unchanged. -/
theorem create_config_overwrite_idempotent (fs : FS) (server : Server)
    (c : List Char) (hbase : fs base_config_name = some c)
    (hh : server.hostname ≠ "ovpn") :
    synth_step (synth_step fs server) server = synth_step fs server ∧
    synth_step (synth_step fs server) server (server_config_name server) =
      some (create_server_specific_config server c) := by
  have hne : server_config_name server ≠ base_config_name :=
    fun h => hh (hostname_eq_of_config_name_eq server h)
  have h2 := synth_step_eq fs server c hbase
  have h1 : synth_step fs server base_config_name = some c := by
    rw [h2]
    unfold fsWrite
    rw [if_neg (fun h => hne h.symm)]
    exact hbase
  have h3 := synth_step_eq (synth_step fs server) server c h1
  constructor
  · rw [h3, h2]
    funext q
    simp only [fsWrite]
    by_cases hq : q = server_config_name server <;> simp [hq]
  · rw [h3]
    simp [fsWrite]

theorem create_config_overwrite_idempotent_witness :
    synth_step (synth_step
        (fun p => if p = base_config_name then some "port 1194\n".toList else none)
        ⟨"vpn1-a.riseup.net", "1.2.3.4", "Paris", ["1194"]⟩)
        ⟨"vpn1-a.riseup.net", "1.2.3.4", "Paris", ["1194"]⟩ =
      synth_step
        (fun p => if p = base_config_name then some "port 1194\n".toList else none)
        ⟨"vpn1-a.riseup.net", "1.2.3.4", "Paris", ["1194"]⟩ :=
  (create_config_overwrite_idempotent _ _ "port 1194\n".toList (by simp)
    (by decide)).1

/-! ## C2 — parsing nothing: empty set, then an uncontrolled crash -/

/-- C2 (corrected): if no directive in the configuration text matches,
`extract_servers` returns the empty list — but `main` performs no
emptiness check and no `ParseError` exit: it passes the empty ranking
to `display_servers_and_choose`, whose `ranked_servers[0]` access
raises an uncaught `IndexError` (an uncontrolled failure). -/
theorem empty_parse_crashes_display (content : String) (inputs : List String)
    (h : findRemoteMatches content = []) :
    extract_servers content = [] ∧
    main_after_parse content [] inputs = StartupOutcome.ranOn ChooseResult.err := by
  have he : extract_servers content = [] := by
    simp [extract_servers, h, groupMatches]
  refine ⟨he, ?_⟩
  simp [main_after_parse, he, find_fastest_server, display_servers_and_choose]

theorem empty_parse_crashes_display_witness :
    extract_servers "port 1194\nproto udp\n" = [] ∧
    main_after_parse "port 1194\nproto udp\n" [] [] =
      StartupOutcome.ranOn ChooseResult.err :=
  empty_parse_crashes_display "port 1194\nproto udp\n" [] (by decide)

/-- C2 counterexample: on a configuration text with zero matching
directives, `main` does not surface a controlled `ParseError` fatal
exit — the run continues into the menu, which crashes with an
`IndexError` on the empty ranking. -/
theorem empty_parse_uncontrolled_cex :
    main_after_parse "client\ndev tun\n" [] ["1"] =
      StartupOutcome.ranOn ChooseResult.err ∧
    StartupOutcome.ranOn ChooseResult.err ≠ StartupOutcome.fatalParseError := by
  exact ⟨by decide, by decide⟩

/-! ## C1 — the produced ranking -/

/-- C1 counterexample: with one reachable and one unreachable probe
result, the returned ranking does not contain one entry per input
endpoint — the unreachable endpoint is dropped entirely (it is
filtered out and only re-added when no endpoint at all is
reachable). -/
theorem find_fastest_server_drops_unreachable_cex :
    (⟨"vpn2-b.riseup.net", "5.6.7.8", "London", ["1194"]⟩ : Server) ∈
      [(⟨"vpn1-a.riseup.net", "1.2.3.4", "Paris", ["1194"]⟩ : Server),
       ⟨"vpn2-b.riseup.net", "5.6.7.8", "London", ["1194"]⟩] ∧
    (⟨"vpn2-b.riseup.net", "5.6.7.8", "London", ["1194"]⟩ : Server) ∉
      (find_fastest_server
        [⟨"vpn1-a.riseup.net", "1.2.3.4", "Paris", ["1194"]⟩,
         ⟨"vpn2-b.riseup.net", "5.6.7.8", "London", ["1194"]⟩]
        [(⟨"vpn1-a.riseup.net", "1.2.3.4", "Paris", ["1194"]⟩, Latency.finite 1),
         (⟨"vpn2-b.riseup.net", "5.6.7.8", "London", ["1194"]⟩, Latency.inf)]).map
        Prod.fst := by
  decide

/-- C1 (amended): for every collected result list, whatever the
completion order, the ranking `find_fastest_server` returns is sorted
non-decreasing by latency; if at least one result is reachable it is a
permutation of exactly the reachable results (unreachable endpoints
are omitted, not sorted last); if none is reachable it is the full
input list with the sentinel, in scan order. -/
theorem find_fastest_server_ranking_spec (servers : List Server)
    (results : List (Server × Latency)) :
    List.Sorted rLat (find_fastest_server servers results) ∧
    (results.filter (fun p => !(p.2 == Latency.inf)) ≠ [] →
      (find_fastest_server servers results).Perm
        (results.filter (fun p => !(p.2 == Latency.inf)))) ∧
    (results.filter (fun p => !(p.2 == Latency.inf)) = [] →
      find_fastest_server servers results =
        servers.map (fun s => (s, Latency.inf))) := by
  by_cases hf : results.filter (fun p => !(p.2 == Latency.inf)) = []
  · refine ⟨?_, fun h => absurd hf h, fun _ => ?_⟩
    · simp only [find_fastest_server, hf]
      simp [sorted_map_const_inf]
    · simp [find_fastest_server, hf]
  · have hne : (results.filter (fun p => !(p.2 == Latency.inf))).isEmpty = false := by
      simpa [List.isEmpty_iff] using hf
    refine ⟨?_, fun _ => ?_, fun h => absurd h hf⟩
    · simp only [find_fastest_server, hne, Bool.false_eq_true, if_false]
      exact List.sorted_insertionSort rLat _
    · simp only [find_fastest_server, hne, Bool.false_eq_true, if_false]
      exact List.perm_insertionSort rLat _

theorem find_fastest_server_ranking_spec_witness :
    (find_fastest_server
      [⟨"vpn1-a.riseup.net", "1.2.3.4", "Paris", ["1194"]⟩]
      [(⟨"vpn1-a.riseup.net", "1.2.3.4", "Paris", ["1194"]⟩,
        Latency.finite 1)]).Perm
      ([(⟨"vpn1-a.riseup.net", "1.2.3.4", "Paris", ["1194"]⟩,
        Latency.finite 1)].filter (fun p => !(p.2 == Latency.inf))) :=
  (find_fastest_server_ranking_spec _ _).2.1 (by decide)

/-! ## C8 — the selection loop -/

/-- C8: for every non-empty ranking, the selection loop: returns the
exit signal on input `E` (in any spacing/case that strips and
uppercases to `E`); on empty input returns the top entry when it is
reachable (the top-ranked reachable endpoint); on empty input when
every entry is unreachable makes no default selection and re-prompts;
and on a numeric input `i` with `1 ≤ i ≤ N` (neither empty nor `E`)
returns the endpoint at 1-based position `i`. -/
theorem display_servers_and_choose_selection
    (r0 : Server × Latency) (rs : List (Server × Latency)) :
    (∀ s rest, pyUpper (pyStrip s) = "E" →
      display_servers_and_choose (r0 :: rs) (s :: rest) = ChooseResult.exited) ∧
    (∀ rest, r0.2 ≠ Latency.inf →
      display_servers_and_choose (r0 :: rs) ("" :: rest) =
        ChooseResult.chosen r0.1) ∧
    ((∀ p ∈ r0 :: rs, p.2 = Latency.inf) → ∀ rest,
      display_servers_and_choose (r0 :: rs) ("" :: rest) =
        display_servers_and_choose (r0 :: rs) rest) ∧
    (∀ s rest (i : Int) (p : Server × Latency),
      pyInt s = some i → pyUpper (pyStrip s) ≠ "E" → pyStrip s ≠ "" →
      1 ≤ i → (r0 :: rs).get? (i - 1).toNat = some p →
      display_servers_and_choose (r0 :: rs) (s :: rest) =
        ChooseResult.chosen p.1) := by
  refine ⟨?_, ?_, ?_, ?_⟩
  · intro s rest hE
    simp [display_servers_and_choose, chooseGo, hE]
  · intro rest hr
    have hr' : (r0.2 == Latency.inf) = false := by
      simpa using hr
    simp [display_servers_and_choose, chooseGo, pyStrip, pyUpper, hr']
  · intro hall rest
    have hr : r0.2 = Latency.inf := hall r0 (List.mem_cons_self r0 rs)
    simp [display_servers_and_choose, chooseGo, pyStrip, pyUpper, pyInt, hr]
  · intro s rest i p hint hE hempty hi hget
    have hlen : (i - 1).toNat < (r0 :: rs).length := by
      have := List.get?_eq_some.mp hget
      exact this.1
    have hile : i ≤ ((r0 :: rs).length : Int) := by
      have h1 : ((i - 1).toNat : Int) = i - 1 := by
        omega
      omega
    have hguard : (1 ≤ i ∧ i ≤ ((r0 :: rs).length : Int)) := ⟨hi, hile⟩
    have hgetD : (r0 :: rs).getD (i - 1).toNat r0 = p := by
      rw [List.getD_eq_getElem?_getD]
      rw [← List.get?_eq_getElem?, hget]
      rfl
    simp only [display_servers_and_choose, chooseGo, hE, if_false, hempty,
      and_false, hint, hguard, and_self, if_true, hgetD]

theorem display_servers_and_choose_selection_witness :
    display_servers_and_choose
      [(⟨"vpn1-a.riseup.net", "1.2.3.4", "Paris", ["1194"]⟩, Latency.finite 1),
       (⟨"vpn2-b.riseup.net", "5.6.7.8", "London", ["1194"]⟩, Latency.finite 2)]
      ["2"] =
      ChooseResult.chosen ⟨"vpn2-b.riseup.net", "5.6.7.8", "London", ["1194"]⟩ :=
  (display_servers_and_choose_selection _ _).2.2.2 "2" [] 2
    (⟨"vpn2-b.riseup.net", "5.6.7.8", "London", ["1194"]⟩, Latency.finite 2)
    (by decide) (by decide) (by decide) (by decide) (by decide)

/-! ## First-occurrence deduplication (the port-merge order) -/


theorem dedupFirstAux_nil (f : Nat) : dedupFirstAux f [] = [] := by
  cases f <;> rfl

theorem dedupFirstAux_congr : ∀ (f1 f2 : Nat) (l : List String),
    l.length ≤ f1 → l.length ≤ f2 → dedupFirstAux f1 l = dedupFirstAux f2 l := by
  intro f1
  induction f1 with
  | zero =>
    intro f2 l h1 _
    have : l = [] := List.eq_nil_of_length_eq_zero (Nat.le_zero.mp h1)
    simp [this, dedupFirstAux_nil]
  | succ a ih =>
    intro f2 l h1 h2
    match l with
    | [] => simp [dedupFirstAux_nil]
    | p :: ps =>
      match f2 with
      | 0 => simp only [List.length_cons] at h2; omega
      | b + 1 =>
        simp only [dedupFirstAux]
        have hlen : (ps.filter (fun q => !(q == p))).length ≤ ps.length :=
          List.length_filter_le _ _
        have ha : (ps.filter (fun q => !(q == p))).length ≤ a := by
          simp only [List.length_cons] at h1; omega
        have hb : (ps.filter (fun q => !(q == p))).length ≤ b := by
          simp only [List.length_cons] at h2; omega
        rw [ih b _ ha hb]

theorem dedupFirst_cons (p : String) (ps : List String) :
    dedupFirst (p :: ps) = p :: dedupFirst (ps.filter (fun q => !(q == p))) := by
  unfold dedupFirst
  simp only [List.length_cons, dedupFirstAux]
  exact congrArg (p :: ·)
    (dedupFirstAux_congr ps.length _ _ (List.length_filter_le _ _) le_rfl)

theorem contains_append_singleton (acc : List String) (p q : String) :
    (acc ++ [p]).contains q = (acc.contains q || (q == p)) := by
  induction acc with
  | nil => rw [Bool.eq_iff_iff]; simp [List.contains_cons]
  | cons a l ih =>
    simp only [List.cons_append, List.contains_cons] at *
    rw [ih, Bool.or_assoc]

/-- The per-hostname port accumulation of `extract_servers` is exactly
first-occurrence deduplication. -/
theorem foldl_addPort_eq_dedupFirst_filter :
    ∀ (l : List String) (acc : List String),
    l.foldl addPort acc = acc ++ dedupFirst (l.filter (fun p => !(acc.contains p))) := by
  intro l
  induction l with
  | nil => intro acc; simp [dedupFirst, dedupFirstAux]
  | cons p ps ih =>
    intro acc
    by_cases hp : p ∈ acc
    · have h1 : addPort acc p = acc := by simp [addPort, hp]
      have h2 : (p :: ps).filter (fun q => !(acc.contains q)) =
          ps.filter (fun q => !(acc.contains q)) := by
        simp [List.filter_cons, hp]
      rw [List.foldl_cons, h1, h2, ih]
    · have h1 : addPort acc p = acc ++ [p] := by simp [addPort, hp]
      have h2 : (p :: ps).filter (fun q => !(acc.contains q)) =
          p :: ps.filter (fun q => !(acc.contains q)) := by
        simp [List.filter_cons, hp]
      rw [List.foldl_cons, h1, ih, h2, dedupFirst_cons]
      rw [List.filter_filter, List.append_assoc, List.singleton_append]
      have h3 : (ps.filter (fun q => !((acc ++ [p]).contains q))) =
          (ps.filter (fun q => !(q == p) && !(acc.contains q))) := by
        apply List.filter_congr
        intro q _
        rw [contains_append_singleton, Bool.not_or, Bool.and_comm]
      rw [h3]

theorem foldl_addPort_eq_dedupFirst (l : List String) :
    l.foldl addPort [] = dedupFirst l := by
  have := foldl_addPort_eq_dedupFirst_filter l []
  simpa using this

/-! ## The grouping loop of extract_servers, hostname by hostname -/


theorem updEntry_hostname (m : RMatch) (s : Server) :
    (updEntry m s).hostname = s.hostname := by
  unfold updEntry
  by_cases hs : s.hostname == m.hostname <;> simp [hs]

theorem updEntry_of_ne (m : RMatch) (s : Server)
    (h : (s.hostname == m.hostname) = false) : updEntry m s = s := by
  simp [updEntry, h]

theorem updEntry_of_eq (m : RMatch) (s : Server)
    (h : (s.hostname == m.hostname) = true) :
    updEntry m s = { s with ports := addPort s.ports m.port } := by
  simp [updEntry, h]

theorem insertMatch_any_true (acc : List Server) (m : RMatch)
    (h : acc.any (fun s => s.hostname == m.hostname) = true) :
    insertMatch acc m = acc.map (updEntry m) := by
  unfold insertMatch
  rw [h, if_pos rfl]
  rfl

theorem insertMatch_any_false (acc : List Server) (m : RMatch)
    (h : acc.any (fun s => s.hostname == m.hostname) = false) :
    insertMatch acc m =
      (acc ++ [Server.mk m.hostname m.ip m.location []]).map (updEntry m) := by
  unfold insertMatch
  rw [h, if_neg Bool.false_ne_true]
  rfl

theorem find?_append_none {p : Server → Bool} {l1 : List Server}
    (l2 : List Server) (h : List.find? p l1 = none) :
    List.find? p (l1 ++ l2) = List.find? p l2 := by
  induction l1 with
  | nil => rfl
  | cons a l ih =>
    simp only [List.find?_cons] at h
    simp only [List.cons_append, List.find?_cons]
    cases hp : p a with
    | true => simp [hp] at h
    | false =>
      simp only [hp] at h ⊢
      exact ih h

theorem find?_append_some {p : Server → Bool} {l1 : List Server} {a : Server}
    (l2 : List Server) (h : List.find? p l1 = some a) :
    List.find? p (l1 ++ l2) = some a := by
  induction l1 with
  | nil => simp at h
  | cons b l ih =>
    simp only [List.find?_cons] at h
    simp only [List.cons_append, List.find?_cons]
    cases hp : p b with
    | true => simpa [hp] using h
    | false =>
      simp only [hp] at h ⊢
      exact ih h

theorem find?_hostname_map (h : String) (m : RMatch) (l : List Server) :
    List.find? (fun s => s.hostname == h) (l.map (updEntry m)) =
    (List.find? (fun s => s.hostname == h) l).map (updEntry m) := by
  induction l with
  | nil => rfl
  | cons a l ih =>
    simp only [List.map_cons, List.find?_cons, updEntry_hostname]
    cases hp : (a.hostname == h) with
    | true => rfl
    | false => exact ih

theorem find?_insertMatch_ne (acc : List Server) (m : RMatch) (h : String)
    (hne : (m.hostname == h) = false) :
    List.find? (fun s => s.hostname == h) (insertMatch acc m) =
    List.find? (fun s => s.hostname == h) acc := by
  have hfix : ∀ s0 : Server, List.find? (fun s => s.hostname == h) acc = some s0 →
      updEntry m s0 = s0 := by
    intro s0 hs0
    have hp := List.find?_some hs0
    have h1 : s0.hostname = h := by simpa using hp
    apply updEntry_of_ne
    rw [h1]
    cases hq : (h == m.hostname) with
    | false => rfl
    | true =>
      have h2 : h = m.hostname := by simpa using hq
      rw [h2] at hne
      simp at hne
  cases hany : acc.any (fun s => s.hostname == m.hostname) with
  | true =>
    rw [insertMatch_any_true acc m hany, find?_hostname_map]
    cases hf : List.find? (fun s => s.hostname == h) acc with
    | none => rfl
    | some s0 => simp [hfix s0 hf]
  | false =>
    rw [insertMatch_any_false acc m hany, find?_hostname_map]
    cases hf : List.find? (fun s => s.hostname == h) acc with
    | none =>
      rw [find?_append_none _ hf]
      simp [List.find?, hne]
    | some s0 =>
      rw [find?_append_some _ hf]
      simp [hfix s0 hf]

theorem find?_insertMatch_self (acc : List Server) (m : RMatch) :
    List.find? (fun s => s.hostname == m.hostname) (insertMatch acc m) =
    some (match List.find? (fun s => s.hostname == m.hostname) acc with
          | some s0 => { s0 with ports := addPort s0.ports m.port }
          | none => { hostname := m.hostname, ip := m.ip, location := m.location,
                      ports := addPort [] m.port }) := by
  cases hf : List.find? (fun s => s.hostname == m.hostname) acc with
  | some s0 =>
    have hany : acc.any (fun s => s.hostname == m.hostname) = true := by
      rw [List.any_eq_true]
      refine ⟨s0, List.mem_of_find?_eq_some hf, ?_⟩
      have hp := List.find?_some hf
      exact hp
    rw [insertMatch_any_true acc m hany, find?_hostname_map, hf]
    have hp := List.find?_some hf
    exact congrArg some (updEntry_of_eq m s0 hp)
  | none =>
    have hany : acc.any (fun s => s.hostname == m.hostname) = false := by
      rw [List.any_eq_false]
      intro s hs
      have := List.find?_eq_none.mp hf s hs
      simpa using this
    rw [insertMatch_any_false acc m hany, find?_hostname_map]
    rw [find?_append_none _ hf]
    simp [List.find?, updEntry]

/-- Folding the remaining matches over an accumulator that already
holds an entry for hostname `h`: the entry keeps its ip and location
and accumulates the ports of the `h`-matches, in order, via
`addPort`. -/
theorem find?_groupLoop_some :
    ∀ (ms : List RMatch) (acc : List Server) (h : String) (s0 : Server),
    List.find? (fun s => s.hostname == h) acc = some s0 →
    List.find? (fun s => s.hostname == h) (ms.foldl insertMatch acc) =
      some { s0 with ports := List.foldl addPort s0.ports ((ms.filter (fun m => m.hostname == h)).map RMatch.port) } := by
  intro ms
  induction ms with
  | nil =>
    intro acc h s0 hf
    simpa using hf
  | cons m ms ih =>
    intro acc h s0 hf
    rw [List.foldl_cons]
    cases hm : (m.hostname == h) with
    | true =>
      have hmh : m.hostname = h := by simpa using hm
      subst hmh
      have hstep := find?_insertMatch_self acc m
      rw [hf] at hstep
      have := ih (insertMatch acc m) m.hostname
        { s0 with ports := addPort s0.ports m.port } hstep
      rw [this]
      simp [List.filter_cons]
    | false =>
      have hstep := find?_insertMatch_ne acc m h hm
      rw [hf] at hstep
      have := ih (insertMatch acc m) h s0 hstep
      rw [this]
      simp [List.filter_cons, hm]

/-- Folding matches over an accumulator with no entry for hostname
`h`: the result has an entry for `h` exactly when some match carries
`h`, and that entry takes the ip and location of the first such match
and accumulates the ports of all of them from the empty list. -/
theorem find?_groupLoop_none :
    ∀ (ms : List RMatch) (acc : List Server) (h : String),
    List.find? (fun s => s.hostname == h) acc = none →
    List.find? (fun s => s.hostname == h) (ms.foldl insertMatch acc) =
      match ms.filter (fun m => m.hostname == h) with
      | [] => none
      | m0 :: _ => some { hostname := h, ip := m0.ip, location := m0.location, ports := List.foldl addPort [] ((ms.filter (fun m => m.hostname == h)).map RMatch.port) } := by
  intro ms
  induction ms with
  | nil =>
    intro acc h hf
    simpa using hf
  | cons m ms ih =>
    intro acc h hf
    rw [List.foldl_cons]
    cases hm : (m.hostname == h) with
    | true =>
      have hmh : m.hostname = h := by simpa using hm
      subst hmh
      have hstep := find?_insertMatch_self acc m
      rw [hf] at hstep
      have := find?_groupLoop_some ms (insertMatch acc m) m.hostname
        (Server.mk m.hostname m.ip m.location (addPort [] m.port)) hstep
      rw [this]
      simp [List.filter_cons]
    | false =>
      have hstep := find?_insertMatch_ne acc m h hm
      rw [hf] at hstep
      have := ih (insertMatch acc m) h hstep
      rw [this]
      simp [List.filter_cons, hm]

theorem map_hostname_insertMatch (acc : List Server) (m : RMatch) :
    (insertMatch acc m).map Server.hostname =
      if m.hostname ∈ acc.map Server.hostname then acc.map Server.hostname
      else acc.map Server.hostname ++ [m.hostname] := by
  have hmap : ∀ l : List Server,
      (l.map (updEntry m)).map Server.hostname = l.map Server.hostname := by
    intro l
    rw [List.map_map]
    apply List.map_congr_left
    intro s _
    exact updEntry_hostname m s
  cases hany : acc.any (fun s => s.hostname == m.hostname) with
  | true =>
    rw [insertMatch_any_true acc m hany, hmap]
    have hmem : m.hostname ∈ acc.map Server.hostname := by
      rw [List.any_eq_true] at hany
      obtain ⟨s, hs, hbs⟩ := hany
      have : s.hostname = m.hostname := by simpa using hbs
      exact this ▸ List.mem_map_of_mem Server.hostname hs
    rw [if_pos hmem]
  | false =>
    rw [insertMatch_any_false acc m hany, hmap]
    have hmem : m.hostname ∉ acc.map Server.hostname := by
      intro hin
      obtain ⟨s, hs, heq⟩ := List.mem_map.mp hin
      rw [List.any_eq_false] at hany
      exact hany s hs (by simpa using heq)
    rw [if_neg hmem, List.map_append]
    rfl

theorem nodup_hostname_groupLoop :
    ∀ (ms : List RMatch) (acc : List Server),
    (acc.map Server.hostname).Nodup →
    ((ms.foldl insertMatch acc).map Server.hostname).Nodup := by
  intro ms
  induction ms with
  | nil => intro acc h; simpa using h
  | cons m ms ih =>
    intro acc h
    rw [List.foldl_cons]
    apply ih
    rw [map_hostname_insertMatch]
    by_cases hmem : m.hostname ∈ acc.map Server.hostname
    · rw [if_pos hmem]; exact h
    · rw [if_neg hmem]
      simp [List.nodup_append, h, hmem]

theorem mem_hostname_groupLoop :
    ∀ (ms : List RMatch) (acc : List Server) (h : String),
    (h ∈ (ms.foldl insertMatch acc).map Server.hostname ↔
      h ∈ acc.map Server.hostname ∨ h ∈ ms.map RMatch.hostname) := by
  intro ms
  induction ms with
  | nil => intro acc h; simp
  | cons m ms ih =>
    intro acc h
    rw [List.foldl_cons, ih]
    rw [map_hostname_insertMatch]
    by_cases hmem : m.hostname ∈ acc.map Server.hostname
    · rw [if_pos hmem]
      simp only [List.map_cons, List.mem_cons]
      constructor
      · rintro (ha | hm)
        · exact Or.inl ha
        · exact Or.inr (Or.inr hm)
      · rintro (ha | rfl | hm)
        · exact Or.inl ha
        · exact Or.inl hmem
        · exact Or.inr hm
    · rw [if_neg hmem]
      simp only [List.mem_append, List.mem_singleton, List.map_cons,
        List.mem_cons]
      tauto

theorem find?_of_mem_nodup_hostname :
    ∀ (l : List Server) (h : String) (s : Server),
    (l.map Server.hostname).Nodup → s ∈ l → s.hostname = h →
    List.find? (fun s => s.hostname == h) l = some s := by
  intro l
  induction l with
  | nil => intro h s _ hs _; simp at hs
  | cons a l ih =>
    intro h s hn hs hh
    have hn' := hn
    rw [List.map_cons, List.nodup_cons] at hn'
    rcases List.mem_cons.mp hs with rfl | hmem
    · have hp : (s.hostname == h) = true := by simp [hh]
      rw [@List.find?_cons_of_pos Server (fun s => s.hostname == h) s l hp]
    · have hp : (a.hostname == h) = false := by
        cases hq : (a.hostname == h) with
        | false => rfl
        | true =>
          have h1 : a.hostname = h := by simpa using hq
          exfalso
          apply hn'.1
          rw [h1, ← hh]
          exact List.mem_map_of_mem Server.hostname hmem
      rw [@List.find?_cons_of_neg Server (fun s => s.hostname == h) a l (by simp [hp])]
      exact ih h s hn'.2 hmem hh

/-! ## C3 — one Endpoint per hostname, ports merged -/

/-- C3: in the parsed output, every hostname that occurs in at least
one matching directive owns exactly one server record, and that
record's port list is the union of the ports of all matching lines for
that hostname, deduplicated, in first-occurrence order. -/
theorem extract_servers_unique_hostname_ports (content : String) (h : String)
    (hmem : h ∈ (findRemoteMatches content).map RMatch.hostname) :
    (extract_servers content).countP (fun s => s.hostname == h) = 1 ∧
    ∀ s ∈ extract_servers content, s.hostname = h →
      s.ports = dedupFirst (((findRemoteMatches content).filter (fun m => m.hostname == h)).map RMatch.port) := by
  have hnodup : ((extract_servers content).map Server.hostname).Nodup := by
    unfold extract_servers groupMatches
    exact nodup_hostname_groupLoop (findRemoteMatches content) [] (by simp)
  have hmem2 : h ∈ (extract_servers content).map Server.hostname := by
    unfold extract_servers groupMatches
    rw [mem_hostname_groupLoop]
    exact Or.inr hmem
  constructor
  · have hcount : List.count h ((extract_servers content).map Server.hostname) = 1 :=
      List.count_eq_one_of_mem hnodup hmem2
    have hc2 : (extract_servers content).countP (fun s => s.hostname == h) =
        List.countP (fun x => x == h) ((extract_servers content).map Server.hostname) := by
      rw [List.countP_map]
      rfl
    rw [hc2]
    exact hcount
  · intro s hs hsh
    have hfind := find?_of_mem_nodup_hostname (extract_servers content) h s
      hnodup hs hsh
    have hmain := find?_groupLoop_none (findRemoteMatches content) [] h rfl
    unfold extract_servers groupMatches at hfind
    rw [hfind] at hmain
    cases hfil : (findRemoteMatches content).filter (fun m => m.hostname == h) with
    | nil =>
      exfalso
      obtain ⟨m, hm, hmh⟩ := List.mem_map.mp hmem
      have hmf : m ∈ (findRemoteMatches content).filter
          (fun m => m.hostname == h) := by
        rw [List.mem_filter]
        exact ⟨hm, by simp [hmh]⟩
      rw [hfil] at hmf
      simp at hmf
    | cons m0 ms' =>
      rw [hfil] at hmain
      have hs' : s = { hostname := h, ip := m0.ip, location := m0.location, ports := List.foldl addPort [] ((m0 :: ms').map RMatch.port) } :=
        Option.some.inj hmain
      rw [hs']
      exact foldl_addPort_eq_dedupFirst _

set_option maxRecDepth 8000 in
theorem extract_servers_unique_hostname_ports_witness :
    (extract_servers "remote 1.2.3.4 1194 # vpn1-a.riseup.net (Paris)\nremote 1.2.3.4 443 # vpn1-a.riseup.net (Paris)\nremote 1.2.3.4 1194 # vpn1-a.riseup.net (Paris)\n").countP
      (fun s => s.hostname == "vpn1-a.riseup.net") = 1 ∧
    (⟨"vpn1-a.riseup.net", "1.2.3.4", "Paris", ["1194", "443"]⟩ : Server).ports =
      dedupFirst (((findRemoteMatches "remote 1.2.3.4 1194 # vpn1-a.riseup.net (Paris)\nremote 1.2.3.4 443 # vpn1-a.riseup.net (Paris)\nremote 1.2.3.4 1194 # vpn1-a.riseup.net (Paris)\n").filter
        (fun m => m.hostname == "vpn1-a.riseup.net")).map RMatch.port) :=
  ⟨(extract_servers_unique_hostname_ports _ "vpn1-a.riseup.net" (by decide)).1,
   (extract_servers_unique_hostname_ports _ "vpn1-a.riseup.net" (by decide)).2
     ⟨"vpn1-a.riseup.net", "1.2.3.4", "Paris", ["1194", "443"]⟩
     (by decide) rfl⟩

/-! ## C10 — first match wins for ip and location -/

/-- C10: when the same hostname occurs in several matching directives,
the parsed record keeps the ip and the location of the first matching
directive in scan order — later addresses and locations are silently
discarded — and only the ports are merged (deduplicated, in
first-occurrence order). -/
theorem extract_servers_first_match_fields (content : String) (h : String)
    (m0 : RMatch) (ms' : List RMatch)
    (hfil : (findRemoteMatches content).filter (fun m => m.hostname == h) = m0 :: ms') :
    ∀ s ∈ extract_servers content, s.hostname = h →
      s.ip = m0.ip ∧ s.location = m0.location ∧
      s.ports = dedupFirst ((m0 :: ms').map RMatch.port) := by
  intro s hs hsh
  have hnodup : ((extract_servers content).map Server.hostname).Nodup := by
    unfold extract_servers groupMatches
    exact nodup_hostname_groupLoop (findRemoteMatches content) [] (by simp)
  have hfind := find?_of_mem_nodup_hostname (extract_servers content) h s
    hnodup hs hsh
  have hmain := find?_groupLoop_none (findRemoteMatches content) [] h rfl
  unfold extract_servers groupMatches at hfind
  rw [hfind, hfil] at hmain
  have hs' : s = { hostname := h, ip := m0.ip, location := m0.location, ports := List.foldl addPort [] ((m0 :: ms').map RMatch.port) } :=
    Option.some.inj hmain
  rw [hs']
  exact ⟨rfl, rfl, foldl_addPort_eq_dedupFirst _⟩

set_option maxRecDepth 8000 in
theorem extract_servers_first_match_fields_witness :
    (⟨"vpn1-a.riseup.net", "1.2.3.4", "Paris", ["1194", "443"]⟩ : Server).ip =
      "1.2.3.4" ∧
    (⟨"vpn1-a.riseup.net", "1.2.3.4", "Paris", ["1194", "443"]⟩ : Server).location =
      "Paris" ∧
    (⟨"vpn1-a.riseup.net", "1.2.3.4", "Paris", ["1194", "443"]⟩ : Server).ports =
      dedupFirst ([(⟨"1.2.3.4", "1194", "vpn1-a.riseup.net", "Paris"⟩ : RMatch),
        ⟨"9.9.9.9", "443", "vpn1-a.riseup.net", "Oslo"⟩].map RMatch.port) :=
  extract_servers_first_match_fields
    "remote 1.2.3.4 1194 # vpn1-a.riseup.net (Paris)\nremote 9.9.9.9 443 # vpn1-a.riseup.net (Oslo)\n"
    "vpn1-a.riseup.net"
    ⟨"1.2.3.4", "1194", "vpn1-a.riseup.net", "Paris"⟩
    [⟨"9.9.9.9", "443", "vpn1-a.riseup.net", "Oslo"⟩]
    (by decide)
    ⟨"vpn1-a.riseup.net", "1.2.3.4", "Paris", ["1194", "443"]⟩
    (by decide) rfl

/-! ## The re.sub scanner: step equations -/

theorem lit_length {w s r : List Char} (h : lit w s = some r) :
    r.length + w.length = s.length := by
  unfold lit at h
  by_cases hp : w.isPrefixOf s
  · rw [if_pos hp] at h
    have hr := Option.some.inj h
    subst hr
    have hpre : w <+: s := List.isPrefixOf_iff_prefix.mp hp
    have hle : w.length ≤ s.length := hpre.length_le
    rw [List.length_drop]
    omega
  · rw [if_neg hp] at h
    exact absurd h (by simp)

theorem obind_eq_some {A B : Type} {x : Option A} {f : A → Option B} {b : B} :
    obind x f = some b ↔ ∃ a, x = some a ∧ f a = some b := by
  cases x <;> simp [obind]

theorem munch1_length {p : Char → Bool} {s : List Char}
    {pr : List Char × List Char}
    (h : munch1 p s = some pr) : pr.2.length < s.length := by
  unfold munch1 at h
  by_cases he : (s.takeWhile p).isEmpty
  · simp only [he, if_pos] at h
    exact absurd h (by simp)
  · simp only [he, Bool.false_eq_true, if_false, Option.some.injEq] at h
    have hsum : (s.takeWhile p).length + (s.dropWhile p).length = s.length := by
      rw [← List.length_append, List.takeWhile_append_dropWhile]
    have hpos : 0 < (s.takeWhile p).length := by
      cases htw : s.takeWhile p with
      | nil => rw [htw] at he; simp at he
      | cons x xs => simp
    have hr : pr.2 = s.dropWhile p := by rw [← h]
    rw [hr]
    omega

theorem length_dropWhile_le (p : Char → Bool) (s : List Char) :
    (s.dropWhile p).length ≤ s.length :=
  (List.dropWhile_sublist p).length_le

theorem matchQuad_length {s : List Char} {pr : List Char × List Char}
    (h : matchQuad s = some pr) : pr.2.length ≤ s.length := by
  simp only [matchQuad, obind_eq_some, Option.some.injEq] at h
  obtain ⟨p1, h1, s1, h2, p2, h3, s2, h4, p3, h5, s3, h6, p4, h7, hout⟩ := h
  have l1 := munch1_length h1
  have l2 := lit_length h2
  have l3 := munch1_length h3
  have l4 := lit_length h4
  have l5 := munch1_length h5
  have l6 := lit_length h6
  have l7 := munch1_length h7
  have hr : pr.2 = p4.2 := by rw [← hout]
  rw [hr]
  simp only [List.length_cons, List.length_singleton] at *
  omega

theorem matchRemoveAt_length {s out : List Char}
    (h : matchRemoveAt s = some out) : out.length < s.length := by
  simp only [matchRemoveAt, obind_eq_some, Option.some.injEq] at h
  obtain ⟨s1, h1, w1, h2, ip, h3, w2, h4, port, h5, s2, h7, hout⟩ := h
  have l1 := lit_length h1
  have l2 := munch1_length h2
  have l3 := matchQuad_length h3
  have l4 := munch1_length h4
  have l5 := munch1_length h5
  have l6 : (port.2.dropWhile (fun c => !(c == '\n'))).length ≤ port.2.length :=
    length_dropWhile_le _ _
  have l7 := lit_length h7
  subst hout
  simp only [List.length_cons, List.length_singleton] at *
  omega

theorem stripRemotesAux_nil (f : Nat) : stripRemotesAux f [] = [] := by
  cases f <;> rfl

theorem stripRemotesAux_congr : ∀ (f1 f2 : Nat) (s : List Char),
    s.length ≤ f1 → s.length ≤ f2 →
    stripRemotesAux f1 s = stripRemotesAux f2 s := by
  intro f1
  induction f1 with
  | zero =>
    intro f2 s h1 _
    have : s = [] := List.eq_nil_of_length_eq_zero (Nat.le_zero.mp h1)
    simp [this, stripRemotesAux_nil]
  | succ a ih =>
    intro f2 s h1 h2
    match s with
    | [] => simp [stripRemotesAux_nil]
    | c :: rest =>
      match f2 with
      | 0 => simp only [List.length_cons] at h2; omega
      | b + 1 =>
        simp only [stripRemotesAux]
        cases hm : matchRemoveAt (c :: rest) with
        | some s2 =>
          have hlt := matchRemoveAt_length hm
          simp only [List.length_cons] at h1 h2 hlt
          exact ih b s2 (by omega) (by omega)
        | none =>
          simp only [List.length_cons] at h1 h2
          rw [ih b rest (by omega) (by omega)]

theorem stripRemotes_match {c : Char} {rest s2 : List Char}
    (hm : matchRemoveAt (c :: rest) = some s2) :
    stripRemotes (c :: rest) = stripRemotes s2 := by
  unfold stripRemotes
  have hlt := matchRemoveAt_length hm
  simp only [List.length_cons]
  simp only [stripRemotesAux, hm]
  simp only [List.length_cons] at hlt
  exact stripRemotesAux_congr rest.length s2.length s2 (by omega) le_rfl

theorem stripRemotes_emit {c : Char} {rest : List Char}
    (hm : matchRemoveAt (c :: rest) = none) :
    stripRemotes (c :: rest) = c :: stripRemotes rest := by
  unfold stripRemotes
  simp only [List.length_cons, stripRemotesAux, hm]

/-! ## Exact-shape lemmas for the pattern pieces -/

theorem obind_some {A B : Type} (a : A) (f : A → Option B) :
    obind (some a) f = f a := rfl

theorem takeWhile_append_all {p : Char → Bool} {x : List Char} (y : List Char)
    (hx : ∀ c ∈ x, p c = true) :
    (x ++ y).takeWhile p = x ++ y.takeWhile p := by
  induction x with
  | nil => simp
  | cons a l ih =>
    have ha : p a = true := hx a (List.mem_cons_self a l)
    have hl : ∀ c ∈ l, p c = true := fun c hc => hx c (List.mem_cons_of_mem a hc)
    simp [List.takeWhile_cons, ha, ih hl]

theorem dropWhile_append_all {p : Char → Bool} {x : List Char} (y : List Char)
    (hx : ∀ c ∈ x, p c = true) :
    (x ++ y).dropWhile p = y.dropWhile p := by
  induction x with
  | nil => simp
  | cons a l ih =>
    have ha : p a = true := hx a (List.mem_cons_self a l)
    have hl : ∀ c ∈ l, p c = true := fun c hc => hx c (List.mem_cons_of_mem a hc)
    simp [List.dropWhile_cons, ha, ih hl]

theorem dropWhile_append_neg {p : Char → Bool} {y : Char} (x z : List Char)
    (hy : p y = false) :
    (x ++ y :: z).dropWhile p = x.dropWhile p ++ y :: z := by
  induction x with
  | nil => simp [List.dropWhile_cons, hy]
  | cons a l ih =>
    simp only [List.cons_append, List.dropWhile_cons]
    by_cases hpa : p a = true
    · simp [hpa, ih]
    · simp only [Bool.not_eq_true] at hpa
      simp [hpa]

theorem munch1_single {p : Char → Bool} {x y : Char} (z : List Char)
    (hx : p x = true) (hy : p y = false) :
    munch1 p (x :: y :: z) = some ([x], y :: z) := by
  unfold munch1
  simp [List.takeWhile_cons, List.dropWhile_cons, hx, hy]

theorem munch1_exact {p : Char → Bool} {x : List Char} {y : Char} (z : List Char)
    (hx : x ≠ []) (hall : ∀ c ∈ x, p c = true) (hy : p y = false) :
    munch1 p (x ++ y :: z) = some (x, y :: z) := by
  unfold munch1
  rw [takeWhile_append_all _ hall, dropWhile_append_all _ hall]
  simp [List.takeWhile_cons, List.dropWhile_cons, hy, hx]

theorem munch1_digits_run {x htail : List Char}
    (hx : x ≠ []) (hall : ∀ c ∈ x, isDigitC c = true) :
    munch1 isDigitC (x ++ htail) =
      some (x ++ htail.takeWhile isDigitC, htail.dropWhile isDigitC) := by
  unfold munch1
  rw [takeWhile_append_all _ hall, dropWhile_append_all _ hall]
  have hne : (x ++ htail.takeWhile isDigitC).isEmpty = false := by
    cases x with
    | nil => exact absurd rfl hx
    | cons a l => rfl
  simp [hne]

theorem lit_exact (w r : List Char) : lit w (w ++ r) = some r := by
  unfold lit
  rw [if_pos (List.isPrefixOf_iff_prefix.mpr ⟨r, rfl⟩)]
  rw [List.drop_left]

theorem lit_cons_self (ch : Char) (r : List Char) :
    lit [ch] (ch :: r) = some r := lit_exact [ch] r

theorem isDigitC_not_space {c : Char} (h : isDigitC c = true) :
    isSpaceC c = false := by
  cases hs : isSpaceC c with
  | false => rfl
  | true =>
    exfalso
    unfold isSpaceC at hs
    simp only [Bool.or_eq_true, beq_iff_eq] at hs
    rcases hs with ((((rfl | rfl) | rfl) | rfl) | rfl) | rfl <;>
      exact absurd h (by decide)

theorem matchQuad_exact {a b c d : List Char} {y : Char} {z : List Char}
    (ha : a ≠ []) (hda : ∀ ch ∈ a, isDigitC ch = true)
    (hb : b ≠ []) (hdb : ∀ ch ∈ b, isDigitC ch = true)
    (hc : c ≠ []) (hdc : ∀ ch ∈ c, isDigitC ch = true)
    (hd : d ≠ []) (hdd : ∀ ch ∈ d, isDigitC ch = true)
    (hy : isDigitC y = false) :
    matchQuad (a ++ '.' :: (b ++ '.' :: (c ++ '.' :: (d ++ y :: z)))) =
      some (a ++ '.' :: b ++ '.' :: c ++ '.' :: d, y :: z) := by
  unfold matchQuad
  rw [munch1_exact _ ha hda (by decide), obind_some]
  rw [lit_cons_self, obind_some]
  rw [munch1_exact _ hb hdb (by decide), obind_some]
  rw [lit_cons_self, obind_some]
  rw [munch1_exact _ hc hdc (by decide), obind_some]
  rw [lit_cons_self, obind_some]
  rw [munch1_exact _ hd hdd hy, obind_some]

theorem matchQuad_exact_cons {a0 : Char} {a' b c d : List Char} {y : Char}
    {z : List Char}
    (hda : ∀ ch ∈ a0 :: a', isDigitC ch = true)
    (hb : b ≠ []) (hdb : ∀ ch ∈ b, isDigitC ch = true)
    (hc : c ≠ []) (hdc : ∀ ch ∈ c, isDigitC ch = true)
    (hd : d ≠ []) (hdd : ∀ ch ∈ d, isDigitC ch = true)
    (hy : isDigitC y = false) :
    matchQuad (a0 :: (a' ++ '.' :: (b ++ '.' :: (c ++ '.' :: (d ++ y :: z))))) =
      some ((a0 :: a') ++ '.' :: b ++ '.' :: c ++ '.' :: d, y :: z) :=
  matchQuad_exact (List.cons_ne_nil a0 a') hda hb hdb hc hdc hd hdd hy

theorem munch1_digits_run_cons {p0 : Char} {p' htail : List Char}
    (hall : ∀ ch ∈ p0 :: p', isDigitC ch = true) :
    munch1 isDigitC (p0 :: (p' ++ htail)) =
      some (p0 :: (p' ++ htail.takeWhile isDigitC), htail.dropWhile isDigitC) :=
  munch1_digits_run (List.cons_ne_nil p0 p') hall


theorem matchRemoveAt_dir {a b c d port tail : List Char} (rest : List Char)
    (ha : a ≠ []) (hda : ∀ ch ∈ a, isDigitC ch = true)
    (hb : b ≠ []) (hdb : ∀ ch ∈ b, isDigitC ch = true)
    (hc : c ≠ []) (hdc : ∀ ch ∈ c, isDigitC ch = true)
    (hd : d ≠ []) (hdd : ∀ ch ∈ d, isDigitC ch = true)
    (hp : port ≠ []) (hdp : ∀ ch ∈ port, isDigitC ch = true)
    (htail : ∀ ch ∈ tail, ch ≠ '\n') :
    matchRemoveAt (renderDir a b c d port tail ++ '\n' :: rest) = some rest := by
  obtain ⟨a0, a', rfl⟩ := List.exists_cons_of_ne_nil ha
  obtain ⟨p0, p', rfl⟩ := List.exists_cons_of_ne_nil hp
  unfold renderDir matchRemoveAt
  simp only [List.append_assoc, List.cons_append, List.nil_append]
  rw [lit_exact, obind_some]
  have ha0 : isDigitC a0 = true := hda a0 (List.mem_cons_self a0 a')
  have hp0 : isDigitC p0 = true := hdp p0 (List.mem_cons_self p0 p')
  rw [munch1_single _ (by decide) (isDigitC_not_space ha0), obind_some]
  dsimp only
  rw [matchQuad_exact_cons hda hb hdb hc hdc hd hdd
    (by decide : isDigitC ' ' = false), obind_some]
  dsimp only
  rw [munch1_single _ (by decide) (isDigitC_not_space hp0), obind_some]
  dsimp only
  rw [munch1_digits_run_cons hdp, obind_some]
  dsimp only
  have hstep : ((tail ++ '\n' :: rest).dropWhile isDigitC).dropWhile
      (fun ch => !(ch == '\n')) = '\n' :: rest := by
    rw [dropWhile_append_neg _ _ (by decide : isDigitC '\n' = false)]
    have hmem : ∀ ch ∈ tail.dropWhile isDigitC, (fun ch => !(ch == '\n')) ch = true := by
      intro ch hch
      have : ch ∈ tail := (List.dropWhile_sublist isDigitC).subset hch
      simp [htail ch this]
    rw [dropWhile_append_all _ hmem]
    rw [List.dropWhile_cons]
    simp
  rw [hstep, lit_cons_self, obind_some]

theorem matchRemoveAt_none_of_not_prefix {s : List Char}
    (h : ¬ ("remote".toList <+: s)) : matchRemoveAt s = none := by
  unfold matchRemoveAt
  have hl : lit ("remote".toList) s = none := by
    unfold lit
    rw [if_neg (fun hp => h (List.isPrefixOf_iff_prefix.mp hp))]
  rw [hl]
  rfl

theorem remote_not_prefix_append {t rest : List Char}
    (hnl : ∀ ch ∈ t, ch ≠ '\n')
    (hnp : ¬ ("remote".toList <+: t)) :
    ¬ ("remote".toList <+: (t ++ '\n' :: rest)) := by
  intro hpre
  obtain ⟨u, hu⟩ := hpre
  by_cases h6 : 6 ≤ t.length
  · apply hnp
    have h1 : ("remote".toList ++ u).take 6 = "remote".toList := by
      have hlen : ("remote".toList).length = 6 := by decide
      rw [← hlen, List.take_left]
    rw [hu] at h1
    rw [List.take_append_of_le_length h6] at h1
    exact ⟨t.drop 6, by rw [← h1]; exact List.take_append_drop 6 t⟩
  · push_neg at h6
    have hget1 : (t ++ '\n' :: rest).get? t.length = some '\n' := by
      rw [List.get?_append_right le_rfl]
      simp
    rw [← hu] at hget1
    have hget2 : ("remote".toList ++ u).get? t.length =
        ("remote".toList).get? t.length := by
      apply List.get?_append
      have hlen : ("remote".toList).length = 6 := by decide
      omega
    rw [hget2] at hget1
    have hmem : '\n' ∈ "remote".toList := List.get?_mem hget1
    exact absurd hmem (by decide)

theorem stripRemotes_plain_line : ∀ (l : List Char) (rest : List Char),
    (∀ ch ∈ l, ch ≠ '\n') → ¬ ("remote".toList <:+: l) →
    stripRemotes (l ++ '\n' :: rest) = l ++ '\n' :: stripRemotes rest := by
  intro l
  induction l with
  | nil =>
    intro rest _ _
    simp only [List.nil_append]
    rw [stripRemotes_emit]
    apply matchRemoveAt_none_of_not_prefix
    rintro ⟨u, hu⟩
    simp at hu
  | cons c l' ih =>
    intro rest hnl hni
    have hnp : ¬ ("remote".toList <+: (c :: l')) := by
      rintro ⟨u, hu⟩
      refine hni ⟨[], u, ?_⟩
      rw [List.nil_append]
      exact hu
    have hnone : matchRemoveAt ((c :: l') ++ '\n' :: rest) = none :=
      matchRemoveAt_none_of_not_prefix (remote_not_prefix_append hnl hnp)
    rw [List.cons_append] at hnone ⊢
    rw [stripRemotes_emit hnone]
    have hnl' : ∀ ch ∈ l', ch ≠ '\n' :=
      fun ch hch => hnl ch (List.mem_cons_of_mem c hch)
    have hni' : ¬ ("remote".toList <:+: l') :=
      fun hinf => hni (List.infix_cons hinf)
    rw [ih rest hnl' hni', List.cons_append]


theorem stripRemotes_match' {s s2 : List Char}
    (hm : matchRemoveAt s = some s2) :
    stripRemotes s = stripRemotes s2 := by
  match s with
  | [] =>
    have h0 : matchRemoveAt ([] : List Char) = none := by decide
    rw [h0] at hm
    exact absurd hm (by simp)
  | c :: rest => exact stripRemotes_match hm

theorem stripRemotes_renderTemplate (ls : List TLine)
    (hg : ∀ l ∈ ls, goodLine l) :
    stripRemotes (renderTemplate ls) = renderTemplate (ls.filter isPlainLine) := by
  induction ls with
  | nil => rfl
  | cons l ls ih =>
    have hl := hg l (List.mem_cons_self l ls)
    have hls : ∀ x ∈ ls, goodLine x :=
      fun x hx => hg x (List.mem_cons_of_mem l hx)
    cases l with
    | dir a b c d port tail =>
      obtain ⟨⟨ha, hda⟩, ⟨hb, hdb⟩, ⟨hc, hdc⟩, ⟨hd, hdd⟩, ⟨hp, hdp⟩, htail⟩ := hl
      have hrt : renderTemplate (TLine.dir a b c d port tail :: ls) =
          renderDir a b c d port tail ++ '\n' :: renderTemplate ls := by
        simp [renderTemplate, renderLine]
      rw [hrt]
      have hmatch := matchRemoveAt_dir (renderTemplate ls)
        ha hda hb hdb hc hdc hd hdd hp hdp htail
      rw [stripRemotes_match' hmatch, ih hls]
      simp [List.filter_cons, isPlainLine]
    | plain l =>
      obtain ⟨hnl, hni⟩ := hl
      have hrt : renderTemplate (TLine.plain l :: ls) =
          l ++ '\n' :: renderTemplate ls := by
        simp [renderTemplate, renderLine]
      rw [hrt, stripRemotes_plain_line l _ hnl hni, ih hls]
      have hfil : (TLine.plain l :: ls).filter isPlainLine =
          TLine.plain l :: ls.filter isPlainLine := by
        simp [List.filter_cons, isPlainLine]
      rw [hfil]
      simp [renderTemplate, renderLine]

/-! ## C4 — the synthesized config -/

/-- C4 counterexample: the removal pattern requires a trailing
newline, so in a template whose final line is a directive not
terminated by a newline, that directive is not stripped: the
synthesized output contains the new directive for the chosen endpoint
and then the residual directive of the template, verbatim. -/
theorem create_config_residual_directive_cex :
    stripRemotes ("remote 1.2.3.4 80 # vpn1-a.riseup.net (Paris)".toList) =
      "remote 1.2.3.4 80 # vpn1-a.riseup.net (Paris)".toList ∧
    create_server_specific_config
      ⟨"vpn9-b.riseup.net", "9.9.9.9", "Oslo", ["443"]⟩
      "remote 1.2.3.4 80 # vpn1-a.riseup.net (Paris)".toList =
      "remote 9.9.9.9 443 # vpn9-b.riseup.net (Oslo)\n\nremote 1.2.3.4 80 # vpn1-a.riseup.net (Paris)".toList := by
  constructor
  · decide
  · decide

/-- C4 (amended): for every endpoint and every newline-terminated
template whose lines are each either a well-formed directive line or a
line not containing `remote`, the synthesized config is exactly: one
new directive line per port of the endpoint (naming only that
endpoint), a blank-line separator, and the non-directive lines of the
template unchanged, in their original relative order. -/
theorem create_config_structured_template (server : Server) (ls : List TLine)
    (hg : ∀ l ∈ ls, goodLine l) :
    create_server_specific_config server (renderTemplate ls) =
      joinNl (server.ports.map (fun p => (mkRemoteLine server p).toList)) ++
        '\n' :: '\n' :: renderTemplate (ls.filter isPlainLine) := by
  unfold create_server_specific_config
  rw [stripRemotes_renderTemplate ls hg]

set_option maxRecDepth 8000 in
theorem create_config_structured_template_witness :
    create_server_specific_config
      ⟨"vpn9-b.riseup.net", "9.9.9.9", "Oslo", ["443", "80"]⟩
      (renderTemplate [TLine.plain "client".toList,
        TLine.dir ['1'] ['2'] ['3'] ['4'] "1194".toList
          " # vpn1-a.riseup.net (Paris)".toList,
        TLine.plain "dev tun".toList]) =
      joinNl ((["443", "80"] : List String).map
        (fun p => (mkRemoteLine
          ⟨"vpn9-b.riseup.net", "9.9.9.9", "Oslo", ["443", "80"]⟩ p).toList)) ++
        '\n' :: '\n' :: renderTemplate [TLine.plain "client".toList,
          TLine.plain "dev tun".toList] :=
  create_config_structured_template
    ⟨"vpn9-b.riseup.net", "9.9.9.9", "Oslo", ["443", "80"]⟩
    [TLine.plain "client".toList,
     TLine.dir ['1'] ['2'] ['3'] ['4'] "1194".toList
       " # vpn1-a.riseup.net (Paris)".toList,
     TLine.plain "dev tun".toList]
    (by decide)
